import Mathlib

/-!
Verification development for the leap-event single-page application.

The development shallowly embeds the state and operations of the
application:

* the pinned-events store (`src/stores/pinnedEvents.ts`): a list of
  events acting as a set keyed by `Event.name`, with the actions
  `addPinnedEvent`, `removePinnedEvent`, `togglePin`, `isPinned`;
* the event-catalog store (`src/stores/events.ts`): `fetchEvents`
  wholesale-replaces the held list with the static dataset;
* the date helpers (`src/utilities/useTime.ts`): `formatDate` and
  `formatCalendarDate` over a model of the ECMAScript `Date` parser and
  of the ECMA-402 formatting entry points they call;
* the event-list view (`src/components/EventWrapper/EventList.vue`):
  the `sortedEvents` computed property, a stable sort of a copied list
  by parsed time;
* the detail-modal scroll-lock lifecycle
  (`src/components/EventModal/EventModal.vue`): the `watch` on the
  `isOpen` prop and the `onUnmounted` hook acting on
  `document.body.style.overflow`.

JavaScript arrays are embedded as `List`, string identity (`===`) as
`==` on `String`, and fallible library calls as `Except`.
-/

/-- An event record, after `src/types/event.ts`: `name` doubles as the
identity key, `time` is an ISO-8601-ish string that is never validated. -/
structure Event where
  name : String
  time : String
  location : String
  description : String
  image : String
deriving DecidableEq

/-! ## Pinned-events store (`src/stores/pinnedEvents.ts`) -/

/-- `isPinned(eventName)`: `this.pinnedEvents.some((e) => e.name === eventName)`. -/
def isPinned (s : List Event) (eventName : String) : Bool :=
  s.any fun e => e.name == eventName

/-- `addPinnedEvent(event)`: push `event` unless some entry already has
its name (`some` + conditional `push`). -/
def addPinnedEvent (s : List Event) (event : Event) : List Event :=
  if s.any (fun e => e.name == event.name) then s else s ++ [event]

/-- `removePinnedEvent(eventName)`: keep exactly the entries whose name
differs (`filter((e) => e.name !== eventName)`). -/
def removePinnedEvent (s : List Event) (eventName : String) : List Event :=
  s.filter fun e => !(e.name == eventName)

/-- `togglePin(event)`: `findIndex` on the name; remove when found
(index > -1), add otherwise. -/
def togglePin (s : List Event) (event : Event) : List Event :=
  match s.findIdx? (fun e => e.name == event.name) with
  | some _ => removePinnedEvent s event.name
  | none => addPinnedEvent s event

/-- One mutating action of the pinned-events store. -/
inductive PinOp where
  | add (event : Event)
  | remove (eventName : String)
  | toggle (event : Event)

/-- Apply one store action to the pinned list. -/
def applyPinOp (s : List Event) : PinOp → List Event
  | .add event => addPinnedEvent s event
  | .remove eventName => removePinnedEvent s eventName
  | .toggle event => togglePin s event

/-- Run a sequence of store actions from a starting state. -/
def runPinOps (s : List Event) (ops : List PinOp) : List Event :=
  ops.foldl applyPinOp s

/-- Run a sequence of `togglePin` calls from a starting state. -/
def runToggles (s : List Event) (ops : List Event) : List Event :=
  ops.foldl togglePin s

/-- The store state holds at most one entry per distinct name. -/
def uniqueNames (s : List Event) : Prop :=
  (s.map Event.name).Nodup

instance (s : List Event) : Decidable (uniqueNames s) := by
  unfold uniqueNames; infer_instance

/-! ## Basic store lemmas -/

theorem togglePin_of_pinned {s : List Event} {e : Event}
    (h : isPinned s e.name = true) :
    togglePin s e = removePinnedEvent s e.name := by
  unfold togglePin
  rcases hsome : s.findIdx? fun x => x.name == e.name with _ | i
  · exfalso
    have hb : (s.findIdx? fun x => x.name == e.name).isSome = false := by
      rw [hsome]; rfl
    rw [List.findIdx?_isSome] at hb
    rw [isPinned] at h
    rw [h] at hb
    exact Bool.noConfusion hb
  · rw [hsome]

theorem togglePin_of_not_pinned {s : List Event} {e : Event}
    (h : isPinned s e.name = false) :
    togglePin s e = s ++ [e] := by
  unfold togglePin
  rcases hsome : s.findIdx? fun x => x.name == e.name with _ | i
  · rw [hsome]
    unfold addPinnedEvent
    rw [if_neg]
    intro hc
    rw [isPinned] at h
    rw [hc] at h
    exact Bool.noConfusion h
  · exfalso
    have hb : (s.findIdx? fun x => x.name == e.name).isSome = true := by
      rw [hsome]; rfl
    rw [List.findIdx?_isSome] at hb
    rw [isPinned] at h
    rw [h] at hb
    exact Bool.false_ne_true hb

theorem isPinned_removePinnedEvent_self (s : List Event) (n : String) :
    isPinned (removePinnedEvent s n) n = false := by
  unfold isPinned removePinnedEvent
  rw [List.any_filter]
  simp

theorem isPinned_removePinnedEvent_other (s : List Event) {n m : String}
    (h : n ≠ m) : isPinned (removePinnedEvent s m) n = isPinned s n := by
  unfold isPinned removePinnedEvent
  rw [List.any_filter]
  have hfun : (fun e : Event => (!(e.name == m)) && (e.name == n)) =
      fun e : Event => e.name == n := by
    funext e
    rcases he : e.name == n with _ | _
    · simp
    · have hen : e.name = n := by simpa using he
      have hem : (e.name == m) = false := by
        simp [hen]
        exact h
      simp [hem]
  rw [hfun]

theorem removePinnedEvent_of_absent {s : List Event} {n : String}
    (h : isPinned s n = false) : removePinnedEvent s n = s := by
  unfold removePinnedEvent
  rw [List.filter_eq_self]
  intro e he
  unfold isPinned at h
  have := List.any_eq_false.mp h e he
  simpa using this

/-- Effect of one toggle on membership at an arbitrary name. -/
theorem isPinned_togglePin (s : List Event) (e : Event) (n : String) :
    isPinned (togglePin s e) n =
      (if e.name = n then !(isPinned s n) else isPinned s n) := by
  rcases hp : isPinned s e.name with _ | _
  · rw [togglePin_of_not_pinned hp]
    unfold isPinned
    rw [List.any_append]
    by_cases hn : e.name = n
    · subst hn
      have : isPinned s e.name = false := hp
      unfold isPinned at this
      simp [this]
    · simp only [if_neg hn]
      have : (List.any [e] fun x => x.name == n) = false := by
        simp [hn]
      rw [this, Bool.or_false]
  · rw [togglePin_of_pinned hp]
    by_cases hn : e.name = n
    · subst hn
      rw [isPinned_removePinnedEvent_self, if_pos rfl, hp]
      rfl
    · rw [if_neg hn, isPinned_removePinnedEvent_other s fun hc => hn hc.symm]

theorem uniqueNames_nil : uniqueNames [] := List.nodup_nil

theorem uniqueNames_addPinnedEvent {s : List Event} (e : Event)
    (h : uniqueNames s) : uniqueNames (addPinnedEvent s e) := by
  unfold addPinnedEvent
  rcases ha : s.any fun x => x.name == e.name with _ | _
  · rw [if_neg (by simp)]
    unfold uniqueNames
    rw [List.map_append]
    rw [List.nodup_append]
    refine ⟨h, List.nodup_singleton _, ?_⟩
    intro a hmem hmem1
    have hname : a = e.name := by simpa using hmem1
    rcases List.mem_map.mp hmem with ⟨x, hx, hxa⟩
    have := List.any_eq_false.mp ha x hx
    apply this
    rw [hxa, hname]
    simp
  · rw [if_pos rfl]
    exact h

theorem uniqueNames_removePinnedEvent {s : List Event} (n : String)
    (h : uniqueNames s) : uniqueNames (removePinnedEvent s n) :=
  List.Nodup.sublist (List.Sublist.map Event.name (List.filter_sublist s)) h

theorem uniqueNames_togglePin {s : List Event} (e : Event)
    (h : uniqueNames s) : uniqueNames (togglePin s e) := by
  rcases hp : isPinned s e.name with _ | _
  · rw [togglePin_of_not_pinned hp]
    have := uniqueNames_addPinnedEvent e h
    unfold addPinnedEvent at this
    rw [if_neg (by rw [show (s.any fun x => x.name == e.name) = false from hp]; exact Bool.noConfusion)] at this
    exact this
  · rw [togglePin_of_pinned hp]
    exact uniqueNames_removePinnedEvent e.name h

theorem uniqueNames_applyPinOp {s : List Event} (op : PinOp)
    (h : uniqueNames s) : uniqueNames (applyPinOp s op) := by
  cases op with
  | add e => exact uniqueNames_addPinnedEvent e h
  | remove n => exact uniqueNames_removePinnedEvent n h
  | toggle e => exact uniqueNames_togglePin e h

theorem uniqueNames_runPinOps (ops : List PinOp) {s : List Event}
    (h : uniqueNames s) : uniqueNames (runPinOps s ops) := by
  induction ops generalizing s with
  | nil => exact h
  | cons op ops ih => exact ih (uniqueNames_applyPinOp op h)

/-- Membership after a sequence of toggles, from an arbitrary start. -/
theorem isPinned_runToggles (ops : List Event) (s : List Event) (n : String) :
    isPinned (runToggles s ops) n =
      if (ops.countP fun e => e.name == n) % 2 = 1 then !(isPinned s n)
      else isPinned s n := by
  induction ops generalizing s with
  | nil => simp [runToggles]
  | cons e ops ih =>
    rw [show runToggles s (e :: ops) = runToggles (togglePin s e) ops from rfl,
      ih, isPinned_togglePin, List.countP_cons]
    by_cases hn : e.name = n
    · rw [if_pos hn, show (if (e.name == n) = true then 1 else 0) = 1 from by simp [hn]]
      by_cases hc : (ops.countP fun x => x.name == n) % 2 = 1
      · rw [if_pos hc, if_neg (by omega : ¬ ((ops.countP fun x => x.name == n) + 1) % 2 = 1), Bool.not_not]
      · rw [if_neg hc, if_pos (by omega : ((ops.countP fun x => x.name == n) + 1) % 2 = 1)]
    · rw [if_neg hn, show (if (e.name == n) = true then 1 else 0) = 0 from by simp [hn]]
      simp

/-! ## Concrete sample events (taken from the repository test data) -/

/-- Sample event from the component tests. -/
def evEarly : Event :=
  ⟨"Early Event", "2025-01-15T10:00:00", "Location A", "First event",
    "https://example.com/event1.jpg"⟩

/-- Sample event from the component tests. -/
def evMiddle : Event :=
  ⟨"Middle Event", "2025-03-20T14:00:00", "Location B", "Second event",
    "https://example.com/event2.jpg"⟩

/-- Sample event from the component tests. -/
def evLate : Event :=
  ⟨"Late Event", "2025-06-30T18:00:00", "Location C", "Third event",
    "https://example.com/event3.jpg"⟩

/-- A second payload carrying the same name as `evEarly`. -/
def evEarlyV2 : Event :=
  ⟨"Early Event", "2025-02-01T00:00:00", "Location Z", "Replacement payload",
    "https://example.com/event1b.jpg"⟩

/-! ## Event-catalog store (`src/stores/events.ts`) -/

/-- Modelled from the spec: the static bundled dataset
(`@/data/events.json`) is not among the provided sources; section 6 of
the spec describes it as a fixed array of event records and section 8
seeds it with an event named "Tech Conference 2025". Its exact contents
do not matter for any claim, so a fixed one-element stand-in list is
used. -/
def eventsData : List Event :=
  [⟨"Tech Conference 2025", "2025-03-15T10:00:00", "Moscone Center",
    "Annual technology conference", "https://example.com/tech.jpg"⟩]

/-- `fetchEvents()`: `this.events = eventsData` — the held list is
wholesale-replaced by the static dataset. -/
def fetchEvents (s : List Event) : List Event := eventsData

/-! ## Claim theorems on the stores -/

/-- C1: starting from the empty pinned store, after any sequence of
`togglePin` calls the final membership of every name equals the oddness
of the total number of toggle calls carrying that name. -/
theorem togglePin_parity_membership (ops : List Event) (n : String) :
    isPinned (runToggles [] ops) n =
      decide ((ops.countP fun e => e.name == n) % 2 = 1) := by
  rw [isPinned_runToggles]
  by_cases hc : (ops.countP fun e => e.name == n) % 2 = 1
  · rw [if_pos hc]
    simp [isPinned, hc]
  · rw [if_neg hc]
    simp [isPinned, hc]

/-- C2: every state reachable from the empty store by
`addPinnedEvent`/`removePinnedEvent`/`togglePin` holds at most one entry
per distinct name, and each of the three mutating operations preserves
that invariant from any state satisfying it. -/
theorem pinnedStore_unique_names_invariant :
    (∀ ops : List PinOp, uniqueNames (runPinOps [] ops)) ∧
    (∀ (s : List Event) (e : Event) (n : String), uniqueNames s →
      uniqueNames (addPinnedEvent s e) ∧
      uniqueNames (removePinnedEvent s n) ∧
      uniqueNames (togglePin s e)) := by
  constructor
  · intro ops
    exact uniqueNames_runPinOps ops uniqueNames_nil
  · intro s e n h
    exact ⟨uniqueNames_addPinnedEvent e h, uniqueNames_removePinnedEvent n h,
      uniqueNames_togglePin e h⟩

/-- Witness for C2 at a concrete state and concrete operations. -/
theorem pinnedStore_unique_names_invariant_witness :
    uniqueNames (addPinnedEvent [evEarly] evMiddle) ∧
    uniqueNames (removePinnedEvent [evEarly] "Early Event") ∧
    uniqueNames (togglePin [evEarly] evMiddle) :=
  pinnedStore_unique_names_invariant.2 [evEarly] evMiddle "Early Event"
    (by decide)

/-- C6: after `addPinnedEvent e` the name of `e` is pinned; removing it
afterwards unpins it; and `removePinnedEvent` on an absent name leaves
the stored list unchanged (and, being a total function, cannot throw). -/
theorem pin_query_lifecycle (s : List Event) (e : Event) (n : String) :
    isPinned (addPinnedEvent s e) e.name = true ∧
    isPinned (removePinnedEvent (addPinnedEvent s e) e.name) e.name = false ∧
    (isPinned s n = false → removePinnedEvent s n = s) := by
  refine ⟨?_, isPinned_removePinnedEvent_self _ _,
    fun h => removePinnedEvent_of_absent h⟩
  unfold addPinnedEvent
  rcases ha : s.any fun x => x.name == e.name with _ | _
  · rw [if_neg (by simp)]
    unfold isPinned
    rw [List.any_append]
    simp
  · rw [if_pos rfl]
    exact ha

/-- Witness for C6 at the empty store. -/
theorem pin_query_lifecycle_witness :
    isPinned (addPinnedEvent [] evEarly) evEarly.name = true ∧
    isPinned (removePinnedEvent (addPinnedEvent [] evEarly) evEarly.name)
      evEarly.name = false ∧
    removePinnedEvent [] "Early Event" = [] := by
  have h := pin_query_lifecycle [] evEarly "Early Event"
  exact ⟨h.1, h.2.1, h.2.2 (by decide)⟩

/-- C8: the store is pass-through on payloads — after a name is toggled
out and toggled back in with a different payload, the single entry held
for that name is exactly the newly passed object. -/
theorem togglePin_passthrough_payload (s : List Event) (e₁ e₂ : Event)
    (hname : e₁.name = e₂.name) (hp : isPinned s e₁.name = true) :
    ((togglePin (togglePin s e₁) e₂).find? fun x => x.name == e₂.name)
      = some e₂ ∧
    ((togglePin (togglePin s e₁) e₂).countP fun x => x.name == e₂.name)
      = 1 := by
  rw [togglePin_of_pinned hp]
  have hnot : isPinned (removePinnedEvent s e₁.name) e₂.name = false := by
    rw [← hname]
    exact isPinned_removePinnedEvent_self s e₁.name
  rw [togglePin_of_not_pinned hnot]
  constructor
  · rw [List.find?_append]
    have h1 : (removePinnedEvent s e₁.name).find?
        (fun x => x.name == e₂.name) = none := by
      rw [List.find?_eq_none]
      intro x hx
      have := List.any_eq_false.mp hnot x hx
      simpa using this
    rw [h1]
    simp
  · rw [List.countP_append]
    have h0 : ((removePinnedEvent s e₁.name).countP
        fun x => x.name == e₂.name) = 0 := by
      rw [List.countP_eq_zero]
      intro x hx
      have := List.any_eq_false.mp hnot x hx
      simpa using this
    rw [h0]
    simp

/-- Witness for C8: `evEarly` toggled out, `evEarlyV2` (same name, new
payload) toggled in. -/
theorem togglePin_passthrough_payload_witness :
    ((togglePin (togglePin [evEarly] evEarly) evEarlyV2).find?
      fun x => x.name == evEarlyV2.name) = some evEarlyV2 ∧
    ((togglePin (togglePin [evEarly] evEarly) evEarlyV2).countP
      fun x => x.name == evEarlyV2.name) = 1 :=
  togglePin_passthrough_payload [evEarly] evEarly evEarlyV2 rfl (by decide)

/-- C10: one `removePinnedEvent` call removes every entry carrying the
given name — even duplicates — and keeps the remaining entries in their
relative order (the result is a sublist of the input containing every
entry whose name differs). -/
theorem removePinnedEvent_removes_all (s : List Event) (n : String) :
    ((removePinnedEvent s n).countP fun e => e.name == n) = 0 ∧
    (removePinnedEvent s n).Sublist s ∧
    (∀ e ∈ s, e.name ≠ n → e ∈ removePinnedEvent s n) := by
  refine ⟨?_, List.filter_sublist s, ?_⟩
  · rw [removePinnedEvent, List.countP_filter]
    have hf : (fun a : Event => (a.name == n) && !(a.name == n)) =
        fun _ : Event => false := by
      funext a
      cases a.name == n <;> rfl
    rw [hf]
    simp
  · intro e he hne
    rw [removePinnedEvent, List.mem_filter]
    exact ⟨he, by simp [hne]⟩

/-- Witness for C10 on a state with a duplicated name. -/
theorem removePinnedEvent_removes_all_witness :
    (((removePinnedEvent [evEarly, evMiddle, evEarlyV2] "Early Event").countP
      fun e => e.name == "Early Event") = 0) ∧
    (removePinnedEvent [evEarly, evMiddle, evEarlyV2] "Early Event").Sublist
      [evEarly, evMiddle, evEarlyV2] ∧
    evMiddle ∈ removePinnedEvent [evEarly, evMiddle, evEarlyV2] "Early Event" := by
  have h := removePinnedEvent_removes_all [evEarly, evMiddle, evEarlyV2]
    "Early Event"
  exact ⟨h.1, h.2.1, h.2.2 evMiddle (by decide) (by decide)⟩

/-- C9: `fetchEvents` wholesale-replaces any prior catalog state with the
static dataset, and a second call yields the same final content as one
call. -/
theorem fetchEvents_replaces_and_idempotent :
    (∀ s : List Event, fetchEvents s = eventsData) ∧
    (∀ s : List Event, fetchEvents (fetchEvents s) = fetchEvents s) :=
  ⟨fun _ => rfl, fun _ => rfl⟩

/-! ## Model of the ECMAScript date machinery used by `useTime.ts`

`useTime.ts` builds `new Date(dateString)` and hands the result to
ECMA-402 formatters. The embedding models a time value as either an
invalid date (`none`, the NaN time value) or a parsed calendar record.
Only the ISO-8601 date / date-time shapes of the ECMAScript Date Time
String Format are modelled (implementation-specific lenient formats are
out of scope of the claims), and time zones are ignored: every parsed
string is taken at face value, which preserves the chronological order
of uniformly shaped timestamps. -/

/-- A parsed calendar date-time. -/
structure DateRec where
  year : Nat
  month : Nat
  day : Nat
  hour : Nat
  minute : Nat
  second : Nat
deriving DecidableEq

/-- A JavaScript value that may be handed to `formatDate` by the
dynamically typed callers: `null`, `undefined`, or a string. -/
inductive JSVal where
  | nullV
  | undefV
  | str (s : String)

/-- Numeric value of a decimal digit character. -/
def digitVal? (c : Char) : Option Nat :=
  if c.isDigit then some (c.toNat - 48) else none

/-- Two decimal digits. -/
def twoDigits (a b : Char) : Option Nat := do
  let x ← digitVal? a
  let y ← digitVal? b
  pure (10 * x + y)

/-- Four decimal digits. -/
def fourDigits (a b c d : Char) : Option Nat := do
  let x ← twoDigits a b
  let y ← twoDigits c d
  pure (100 * x + y)

/-- Number of days in a month of the proleptic Gregorian calendar. -/
def monthLength (year month : Nat) : Nat :=
  if month = 2 then
    if year % 4 = 0 ∧ (year % 100 ≠ 0 ∨ year % 400 = 0) then 29 else 28
  else if month = 4 ∨ month = 6 ∨ month = 9 ∨ month = 11 then 30
  else 31

/-- Parse `HH:MM` or `HH:MM:SS`. -/
def parseHMS : List Char → Option (Nat × Nat × Nat)
  | [h1, h2, ':', m1, m2] => do
      let h ← twoDigits h1 h2
      let m ← twoDigits m1 m2
      if h < 24 ∧ m < 60 then pure (h, m, 0) else none
  | [h1, h2, ':', m1, m2, ':', s1, s2] => do
      let h ← twoDigits h1 h2
      let m ← twoDigits m1 m2
      let s ← twoDigits s1 s2
      if h < 24 ∧ m < 60 ∧ s < 60 then pure (h, m, s) else none
  | _ => none

/-- Parse `YYYY-MM-DD` optionally followed by `THH:MM[:SS]`, with range
validation, as the ECMAScript Date Time String Format does; any other
string yields an invalid date (NaN time value). -/
def parseISODate (s : String) : Option DateRec :=
  match s.data with
  | y1 :: y2 :: y3 :: y4 :: '-' :: m1 :: m2 :: '-' :: d1 :: d2 :: rest => do
      let y ← fourDigits y1 y2 y3 y4
      let m ← twoDigits m1 m2
      let d ← twoDigits d1 d2
      if 1 ≤ m ∧ m ≤ 12 ∧ 1 ≤ d ∧ d ≤ monthLength y m then
        match rest with
        | [] => pure ⟨y, m, d, 0, 0, 0⟩
        | 'T' :: timePart => do
            let (h, mi, se) ← parseHMS timePart
            pure ⟨y, m, d, h, mi, se⟩
        | _ => none
      else none
  | _ => none

/-- `new Date(x)` for the values the claims exercise: `null` coerces to
the number 0 (the epoch), `undefined` to NaN (invalid date), and a
string goes through the date-time string parse. -/
def jsDate : JSVal → Option DateRec
  | .nullV => some ⟨1970, 1, 1, 0, 0, 0⟩
  | .undefV => none
  | .str s => parseISODate s

/-- Day count of a civil date on an absolute scale (days since
1 March of year -400 of the proleptic Gregorian calendar), computed with
the standard era decomposition. -/
def daysFromCivil (y m d : Nat) : Nat :=
  let yy := y + 400
  let y1 := yy - (if m ≤ 2 then 1 else 0)
  let era := y1 / 400
  let yoe := y1 % 400
  let mp := if m > 2 then m - 3 else m + 9
  let doy := (153 * mp + 2) / 5 + (d - 1)
  let doe := yoe * 365 + yoe / 4 - yoe / 100 + doy
  era * 146097 + doe

/-- `Date.prototype.getTime`: milliseconds since the Unix epoch. -/
def epochMillis (r : DateRec) : Int :=
  ((daysFromCivil r.year r.month r.day : Int) - (719468 + 146097)) * 86400000
    + ((r.hour * 3600 + r.minute * 60 + r.second : Nat) : Int) * 1000

/-- Day-of-week index of a civil date, 0 = Sunday. -/
def weekdayIdx (r : DateRec) : Nat :=
  (daysFromCivil r.year r.month r.day + 3) % 7

/-- en-US long weekday names. -/
def weekdayName : Nat → String
  | 0 => "Sunday"
  | 1 => "Monday"
  | 2 => "Tuesday"
  | 3 => "Wednesday"
  | 4 => "Thursday"
  | 5 => "Friday"
  | 6 => "Saturday"
  | _ => ""

/-- en-US short month names. -/
def monthShortName : Nat → String
  | 1 => "Jan"
  | 2 => "Feb"
  | 3 => "Mar"
  | 4 => "Apr"
  | 5 => "May"
  | 6 => "Jun"
  | 7 => "Jul"
  | 8 => "Aug"
  | 9 => "Sep"
  | 10 => "Oct"
  | 11 => "Nov"
  | 12 => "Dec"
  | _ => ""

/-- ASCII uppercasing of one character, as `String.prototype.toUpperCase`
acts on the month names in play. -/
def upperAscii (c : Char) : Char :=
  if c.isLower then Char.ofNat (c.toNat - 32) else c

/-- `String.prototype.toUpperCase` on ASCII strings. -/
def toUpperAscii (s : String) : String :=
  ⟨s.data.map upperAscii⟩

/-- 12-hour clock hour. -/
def hour12 (h : Nat) : Nat := if h % 12 = 0 then 12 else h % 12

/-- AM/PM marker. -/
def amPm (h : Nat) : String := if h < 12 then "AM" else "PM"

/-- Two-digit zero padding. -/
def pad2 (n : Nat) : String :=
  if n < 10 then "0" ++ toString n else toString n

/-- `formatDate(dateString)`: `new Intl.DateTimeFormat('en-US',
options).format(date)` with long weekday, short month, numeric day,
year, and 12-hour time. Per ECMA-402 (FormatDateTimePattern: if the time
value x is NaN, throw a RangeError exception), formatting an invalid
date THROWS; the throw is embedded as `Except.error`. The repository's
own `EventList` test file mocks this module, in its words, to prevent
errors with invalid dates. -/
def formatDate (dateString : JSVal) : Except String String :=
  match jsDate dateString with
  | none => .error "RangeError: Invalid time value"
  | some r =>
      .ok (weekdayName (weekdayIdx r) ++ ", " ++ monthShortName r.month
        ++ " " ++ toString r.day ++ ", " ++ toString r.year ++ ", "
        ++ toString (hour12 r.hour) ++ ":" ++ pad2 r.minute ++ " "
        ++ amPm r.hour)

/-- `formatCalendarDate(dateString)`: month via
`date.toLocaleString('en-US', \x7b month: 'short' \x7d).toUpperCase()` and day
via `date.getDate().toString()`. Per ECMA-402,
`Date.prototype.toLocaleString` RETURNS the string "Invalid Date" for a
NaN time value (it does not throw), `.toUpperCase()` gives
"INVALID DATE", and `getDate()` on an invalid date yields NaN, whose
string form is "NaN" — so this function is total on every input. -/
def formatCalendarDate (dateString : JSVal) : String × String :=
  match jsDate dateString with
  | none => ("INVALID DATE", "NaN")
  | some r => (toUpperAscii (monthShortName r.month), toString r.day)

example : parseISODate "2025-01-15T10:00:00" = some ⟨2025, 1, 15, 10, 0, 0⟩ := by decide
example : parseISODate "" = none := by decide
example : parseISODate "not-a-date" = none := by decide
example : parseISODate "2025-03-15" = some ⟨2025, 3, 15, 0, 0, 0⟩ := by decide
example : formatDate (JSVal.str "2025-03-15T10:00:00") =
    Except.ok "Saturday, Mar 15, 2025, 10:00 AM" := rfl
example : formatDate JSVal.nullV =
    Except.ok "Thursday, Jan 1, 1970, 12:00 AM" := rfl
example : formatCalendarDate (JSVal.str "not-a-date") = ("INVALID DATE", "NaN") := by decide
example : formatCalendarDate (JSVal.str "2025-03-15T10:00:00") = ("MAR", "15") := by decide

/-! ## Claim C5: totality of the formatters -/

/-- C5 counterexample: `formatDate("not-a-date")` does not return a
string — the embedded ECMA-402 semantics make it throw a RangeError,
so the claim that neither function ever throws is false as stated. -/
theorem formatDate_throws_on_unparseable :
    formatDate (JSVal.str "not-a-date") =
      Except.error "RangeError: Invalid time value" := rfl

/-- C5 amended: `formatCalendarDate` returns a pair of strings and never
throws for all five inputs, and `formatDate` returns a string for `null`
and for parseable ISO strings — but it throws a RangeError for
`undefined`, `""`, and `"not-a-date"`. -/
theorem formatters_totality_amended :
    (formatDate JSVal.nullV).isOk = true ∧
    (∀ s : String, (parseISODate s).isSome = true →
      (formatDate (JSVal.str s)).isOk = true) ∧
    (formatDate JSVal.undefV).isOk = false ∧
    (formatDate (JSVal.str "")).isOk = false ∧
    (formatDate (JSVal.str "not-a-date")).isOk = false ∧
    formatCalendarDate JSVal.nullV = ("JAN", "1") ∧
    formatCalendarDate JSVal.undefV = ("INVALID DATE", "NaN") ∧
    formatCalendarDate (JSVal.str "") = ("INVALID DATE", "NaN") ∧
    formatCalendarDate (JSVal.str "not-a-date") = ("INVALID DATE", "NaN") ∧
    formatCalendarDate (JSVal.str "2025-03-15T10:00:00") = ("MAR", "15") := by
  refine ⟨rfl, ?_, rfl, rfl, rfl, rfl, rfl, rfl, rfl, rfl⟩
  intro s h
  simp only [formatDate, jsDate]
  rcases hp : parseISODate s with _ | r
  · rw [hp] at h
    exact Bool.noConfusion h
  · rfl

/-- Witness for the quantified part of the amended C5, at a parseable
ISO string. -/
theorem formatters_totality_amended_witness :
    (parseISODate "2025-01-15T10:00:00").isSome = true ∧
    (formatDate (JSVal.str "2025-01-15T10:00:00")).isOk = true :=
  ⟨by decide, formatters_totality_amended.2.1 "2025-01-15T10:00:00" (by decide)⟩

/-! ## Event List View (`src/components/EventWrapper/EventList.vue`) -/

/-- `new Date(e.time).getTime()` — `none` embeds the NaN time value of
an unparseable `time`. -/
def eventTime? (e : Event) : Option Int :=
  (parseISODate e.time).map epochMillis

/-- The sort comparator
`new Date(a.time).getTime() - new Date(b.time).getTime()`; per the
ECMAScript SortCompare operation, a NaN comparator result is treated as
+0, embedded here by the catch-all branch. -/
def sortCompare (a b : Event) : Int :=
  match eventTime? a, eventTime? b with
  | some x, some y => x - y
  | _, _ => 0

/-- `a` sorts no later than `b` under the comparator. -/
def sortLe (a b : Event) : Bool :=
  decide (sortCompare a b ≤ 0)

/-- Stable insertion of one event into an already sorted list: placed
before the first entry it does not sort strictly after. -/
def sortInsert (a : Event) : List Event → List Event
  | [] => [a]
  | b :: l => if sortLe a b then a :: b :: l else b :: sortInsert a l

/-- The `sortedEvents` computed property:
`[...eventStore.events].sort((a, b) => ...)`. `Array.prototype.sort` is
required to be stable since ES2019, and for a consistent comparator the
stable-sorted permutation is unique, so a stable insertion sort embeds
it; when the comparator is inconsistent (some `time` does not parse) the
engine's order is implementation-defined and no claim constrains it. -/
def sortedEvents : List Event → List Event
  | [] => []
  | e :: l => sortInsert e (sortedEvents l)

/-- What the EventList template produces: the container's heading text
(the `<h3>` is unconditionally "Events"), one card per element of
`sortedEvents`, and the store contents after the render — the spread
`[...]` copies the array before `.sort`, so the store list is returned
untouched. -/
structure EventListRender where
  heading : String
  cards : List Event
  storeAfter : List Event
deriving DecidableEq

/-- Render the EventList component from the catalog store state. -/
def renderEventList (storeEvents : List Event) : EventListRender :=
  { heading := "Events"
  , cards := sortedEvents storeEvents
  , storeAfter := storeEvents }

/-- Parsed time of an event, defaulting to 0; on parseable events this
is the genuine timestamp. -/
def timeVal (e : Event) : Int :=
  (eventTime? e).getD 0

theorem sortInsert_perm (a : Event) (l : List Event) :
    (sortInsert a l).Perm (a :: l) := by
  induction l with
  | nil => exact List.Perm.refl _
  | cons b l ih =>
    rw [sortInsert]
    rcases hle : sortLe a b with _ | _
    · rw [if_neg (by simp)]
      exact (List.Perm.cons b ih).trans (List.Perm.swap a b l)
    · rw [if_pos rfl]

theorem sortedEvents_perm (l : List Event) : (sortedEvents l).Perm l := by
  induction l with
  | nil => exact List.Perm.refl _
  | cons e l ih =>
    rw [sortedEvents]
    exact (sortInsert_perm e (sortedEvents l)).trans (List.Perm.cons e ih)

theorem sortLe_true_le {a b : Event} (ha : (eventTime? a).isSome = true)
    (hb : (eventTime? b).isSome = true) (h : sortLe a b = true) :
    timeVal a ≤ timeVal b := by
  rcases Option.isSome_iff_exists.mp ha with ⟨x, hx⟩
  rcases Option.isSome_iff_exists.mp hb with ⟨y, hy⟩
  unfold sortLe sortCompare at h
  rw [hx, hy] at h
  have hxy : x - y ≤ 0 := of_decide_eq_true h
  unfold timeVal
  rw [hx, hy]
  simp only [Option.getD_some]
  omega

theorem sortLe_false_le {a b : Event} (ha : (eventTime? a).isSome = true)
    (hb : (eventTime? b).isSome = true) (h : sortLe a b = false) :
    timeVal b ≤ timeVal a := by
  rcases Option.isSome_iff_exists.mp ha with ⟨x, hx⟩
  rcases Option.isSome_iff_exists.mp hb with ⟨y, hy⟩
  unfold sortLe sortCompare at h
  rw [hx, hy] at h
  have hxy : ¬ (x - y ≤ 0) := of_decide_eq_false h
  unfold timeVal
  rw [hx, hy]
  simp only [Option.getD_some]
  omega

theorem pairwise_sortInsert {a : Event} {l : List Event}
    (ha : (eventTime? a).isSome = true)
    (hl : ∀ x ∈ l, (eventTime? x).isSome = true)
    (hp : l.Pairwise fun x y => timeVal x ≤ timeVal y) :
    (sortInsert a l).Pairwise fun x y => timeVal x ≤ timeVal y := by
  induction l with
  | nil => simp [sortInsert]
  | cons b l ih =>
    have hb : (eventTime? b).isSome = true := hl b (List.mem_cons_self b l)
    have hl' : ∀ x ∈ l, (eventTime? x).isSome = true :=
      fun x hx => hl x (List.mem_cons_of_mem b hx)
    rcases List.pairwise_cons.mp hp with ⟨hble, hpl⟩
    rw [sortInsert]
    rcases hle : sortLe a b with _ | _
    · rw [if_neg (by simp)]
      rw [List.pairwise_cons]
      refine ⟨?_, ih hl' hpl⟩
      intro x hx
      have hx' := (sortInsert_perm a l).mem_iff.mp hx
      rcases List.mem_cons.mp hx' with hxa | hxl
      · subst hxa
        exact sortLe_false_le ha hb hle
      · exact hble x hxl
    · rw [if_pos rfl]
      rw [List.pairwise_cons]
      refine ⟨?_, hp⟩
      intro x hx
      rcases List.mem_cons.mp hx with hxb | hxl
      · subst hxb
        exact sortLe_true_le ha hb hle
      · exact le_trans (sortLe_true_le ha hb hle) (hble x hxl)

theorem pairwise_sortedEvents {l : List Event}
    (hl : ∀ x ∈ l, (eventTime? x).isSome = true) :
    (sortedEvents l).Pairwise fun x y => timeVal x ≤ timeVal y := by
  induction l with
  | nil => simp [sortedEvents]
  | cons e l ih =>
    have he : (eventTime? e).isSome = true := hl e (List.mem_cons_self e l)
    have hl' : ∀ x ∈ l, (eventTime? x).isSome = true :=
      fun x hx => hl x (List.mem_cons_of_mem e hx)
    rw [sortedEvents]
    refine pairwise_sortInsert he ?_ (ih hl')
    intro x hx
    exact hl' x ((sortedEvents_perm l).mem_iff.mp hx)

/-- C3: the Event List View renders a derived, re-sorted copy of the
catalog — the store list is element-for-element unchanged after the
render, the rendered cards are a permutation of the catalog, and when
every catalog event has a parseable time the rendered order is ascending
by parsed time. -/
theorem eventList_sorted_no_mutation (events : List Event)
    (h : ∀ e ∈ events, (eventTime? e).isSome = true) :
    (renderEventList events).storeAfter = events ∧
    (renderEventList events).cards.Perm events ∧
    (renderEventList events).cards.Pairwise
      (fun a b => timeVal a ≤ timeVal b) :=
  ⟨rfl, sortedEvents_perm events, pairwise_sortedEvents h⟩

/-- Witness for C3 on the spec's `[T3, T1, T2]` example shape. -/
theorem eventList_sorted_no_mutation_witness :
    (∀ e ∈ [evLate, evEarly, evMiddle], (eventTime? e).isSome = true) ∧
    ((renderEventList [evLate, evEarly, evMiddle]).storeAfter =
        [evLate, evEarly, evMiddle] ∧
      (renderEventList [evLate, evEarly, evMiddle]).cards.Perm
        [evLate, evEarly, evMiddle] ∧
      (renderEventList [evLate, evEarly, evMiddle]).cards.Pairwise
        (fun a b => timeVal a ≤ timeVal b)) :=
  ⟨by decide, eventList_sorted_no_mutation [evLate, evEarly, evMiddle]
    (by decide)⟩

example : (renderEventList [evLate, evEarly, evMiddle]).cards =
    [evEarly, evMiddle, evLate] := by decide

/-- C7: at the failing input (an empty catalog) the EventList renders
its container with zero cards, but the heading is still the
unconditional "Events" — there is no "no events" indicator, although the
component tests require the heading "No events are available" there. -/
theorem eventList_empty_no_indicator :
    renderEventList [] =
      { heading := "Events", cards := [], storeAfter := [] } ∧
    (renderEventList []).heading ≠ "No events are available" := by
  exact ⟨rfl, by decide⟩


/-! ## Detail Modal scroll lock (`src/components/EventModal/EventModal.vue`)

The page mounts one `EventModal` instance per list card
(`EventCard.vue`) and one per pinned card (`PinnedEventCard.vue`); each
owning card holds the `isModalOpen` flag it passes to its modal as the
`isOpen` prop. Every instance writes the single shared
`document.body.style.overflow`: the `watch` on `isOpen` sets it to
"hidden" on open and to "" on close, and `onUnmounted` resets it to ""
unconditionally. Pinning an event mounts a new pinned-card instance;
unpinning unmounts it. The backdrop and close button of an instance
exist only while its own overlay is rendered (`v-if="isOpen"`); every
mounted instance keeps a window-level Escape handler that closes that
instance when its own `isOpen` is set; `@click.stop` isolates clicks on
the content area. -/

/-- One card/modal pair: the component lifetime and the owning card's
open flag. -/
structure CardModal where
  mounted : Bool
  isOpen : Bool
deriving DecidableEq

/-- The whole page: all card/modal instances plus the shared
`document.body.style.overflow`. -/
structure ModalSys where
  instances : List CardModal
  bodyOverflow : String
deriving DecidableEq

/-- The discrete UI events driving the modal instances: per-instance
card click, backdrop click, close-button click, content click and
teardown; the page-global Escape keydown; and the mounting of a fresh
closed instance (a pinned card appearing). -/
inductive PageEvent where
  | openRequest (i : Nat)
  | backdropClick (i : Nat)
  | closeButtonClick (i : Nat)
  | contentClick (i : Nat)
  | escapeKey
  | unmountInstance (i : Nat)
  | mountInstance

/-- The `watch` on the `isOpen` prop: fires only when the value changes,
setting the overflow to "hidden" on open and to "" on close. -/
def watchOverflow (oldOpen newOpen : Bool) (ov : String) : String :=
  if oldOpen == newOpen then ov
  else if newOpen then "hidden" else ""

/-- Set instance `i`'s flag and run that instance's watcher effect on
the shared overflow. -/
def setOpenAt (sys : ModalSys) (i : Nat) (b : Bool) : ModalSys :=
  match sys.instances[i]? with
  | some c =>
      { instances := sys.instances.set i { c with isOpen := b }
      , bodyOverflow := watchOverflow c.isOpen b sys.bodyOverflow }
  | none => sys

/-- One step of the page. Backdrop and close-button clicks require their
instance to be open (its overlay rendered); Escape closes every mounted
open instance, each closing watch writing "" to the shared overflow;
unmounting a mounted instance always resets the overflow to "" — even
when a different instance is still open. Events aimed at missing or
torn-down instances are no-ops. -/
def pageStep (sys : ModalSys) : PageEvent → ModalSys
  | .openRequest i =>
      match sys.instances[i]? with
      | some c => if c.mounted then setOpenAt sys i true else sys
      | none => sys
  | .backdropClick i =>
      match sys.instances[i]? with
      | some c => if c.mounted && c.isOpen then setOpenAt sys i false else sys
      | none => sys
  | .closeButtonClick i =>
      match sys.instances[i]? with
      | some c => if c.mounted && c.isOpen then setOpenAt sys i false else sys
      | none => sys
  | .contentClick _ => sys
  | .escapeKey =>
      if sys.instances.any (fun c => c.mounted && c.isOpen) then
        { instances := sys.instances.map fun c =>
            if c.mounted && c.isOpen then { c with isOpen := false } else c
        , bodyOverflow := "" }
      else sys
  | .unmountInstance i =>
      match sys.instances[i]? with
      | some c =>
          if c.mounted then
            { instances := sys.instances.set i { c with mounted := false }
            , bodyOverflow := "" }
          else sys
      | none => sys
  | .mountInstance =>
      { instances := sys.instances ++ [{ mounted := true, isOpen := false }]
      , bodyOverflow := sys.bodyOverflow }

/-- Initial page: `n` mounted, closed instances (one per rendered card),
scroll unlocked. -/
def pageInit (n : Nat) : ModalSys :=
  { instances := List.replicate n { mounted := true, isOpen := false }
  , bodyOverflow := "" }

/-- Run a sequence of UI events from an `n`-card page. -/
def runPage (n : Nat) (evs : List PageEvent) : ModalSys :=
  evs.foldl pageStep (pageInit n)

/-- Some instance is currently mounted and open. -/
def anyOpen (sys : ModalSys) : Bool :=
  sys.instances.any fun c => c.mounted && c.isOpen

/-! ### Transition effects on the shared lock -/

theorem pageStep_open_locks {sys : ModalSys} {i : Nat} {c : CardModal}
    (hg : sys.instances[i]? = some c) (hm : c.mounted = true)
    (ho : c.isOpen = false) :
    (pageStep sys (PageEvent.openRequest i)).bodyOverflow = "hidden" := by
  simp [pageStep, setOpenAt, watchOverflow, hg, hm, ho]

theorem pageStep_close_unlocks {sys : ModalSys} {i : Nat} {c : CardModal}
    (hg : sys.instances[i]? = some c) (hm : c.mounted = true)
    (ho : c.isOpen = true) :
    (pageStep sys (PageEvent.backdropClick i)).bodyOverflow = "" ∧
    (pageStep sys (PageEvent.closeButtonClick i)).bodyOverflow = "" := by
  constructor <;> simp [pageStep, setOpenAt, watchOverflow, hg, hm, ho]

theorem pageStep_unmount_unlocks {sys : ModalSys} {i : Nat} {c : CardModal}
    (hg : sys.instances[i]? = some c) (hm : c.mounted = true) :
    (pageStep sys (PageEvent.unmountInstance i)).bodyOverflow = "" := by
  simp [pageStep, hg, hm]

theorem pageStep_escape_unlocks {sys : ModalSys} (h : anyOpen sys = true) :
    (pageStep sys PageEvent.escapeKey).bodyOverflow = "" := by
  unfold anyOpen at h
  simp [pageStep, h]

/-! ### The surviving direction of the lock invariant -/

/-- The shared overflow reads "hidden" only while some instance is
mounted and open. -/
def lockedImpliesOpen (sys : ModalSys) : Prop :=
  sys.bodyOverflow = "hidden" → anyOpen sys = true

theorem lockedImpliesOpen_init (n : Nat) : lockedImpliesOpen (pageInit n) := by
  intro hcon
  have he : (pageInit n).bodyOverflow = "" := rfl
  rw [he] at hcon
  exact absurd hcon (by decide)

theorem lockedImpliesOpen_step {sys : ModalSys} (h : lockedImpliesOpen sys) :
    ∀ ev : PageEvent, lockedImpliesOpen (pageStep sys ev) := by
  intro ev
  cases ev with
  | openRequest i =>
      rcases hg : sys.instances[i]? with _ | c
      · simpa [pageStep, hg] using h
      · rcases hm : c.mounted with _ | _
        · simpa [pageStep, hg, hm] using h
        · intro hov
          have hlen : i < sys.instances.length := by
            rcases List.getElem?_eq_some.mp hg with ⟨hlt, _⟩
            exact hlt
          have hstep : pageStep sys (PageEvent.openRequest i) =
              setOpenAt sys i true := by
            simp [pageStep, hg, hm]
          have hset : setOpenAt sys i true =
              { instances := sys.instances.set i { c with isOpen := true }
              , bodyOverflow :=
                  watchOverflow c.isOpen true sys.bodyOverflow } := by
            simp [setOpenAt, hg]
          rw [hstep, hset]
          show (sys.instances.set i { c with isOpen := true }).any
              (fun x => x.mounted && x.isOpen) = true
          rw [List.any_eq_true]
          exact ⟨{ c with isOpen := true },
            List.mem_set sys.instances i hlen _, by simp [hm]⟩
  | backdropClick i =>
      rcases hg : sys.instances[i]? with _ | c
      · simpa [pageStep, hg] using h
      · rcases hmo : c.mounted && c.isOpen with _ | _
        · simpa [pageStep, hg, hmo] using h
        · intro hov
          rcases (show c.mounted = true ∧ c.isOpen = true by simpa using hmo)
            with ⟨hm, ho⟩
          have := (pageStep_close_unlocks hg hm ho).1
          rw [this] at hov
          exact absurd hov (by decide)
  | closeButtonClick i =>
      rcases hg : sys.instances[i]? with _ | c
      · simpa [pageStep, hg] using h
      · rcases hmo : c.mounted && c.isOpen with _ | _
        · simpa [pageStep, hg, hmo] using h
        · intro hov
          rcases (show c.mounted = true ∧ c.isOpen = true by simpa using hmo)
            with ⟨hm, ho⟩
          have := (pageStep_close_unlocks hg hm ho).2
          rw [this] at hov
          exact absurd hov (by decide)
  | contentClick i => exact h
  | escapeKey =>
      rcases ha : sys.instances.any (fun c => c.mounted && c.isOpen) with _ | _
      · simpa [pageStep, ha] using h
      · intro hov
        have := pageStep_escape_unlocks (show anyOpen sys = true from ha)
        rw [this] at hov
        exact absurd hov (by decide)
  | unmountInstance i =>
      rcases hg : sys.instances[i]? with _ | c
      · simpa [pageStep, hg] using h
      · rcases hm : c.mounted with _ | _
        · simpa [pageStep, hg, hm] using h
        · intro hov
          have := pageStep_unmount_unlocks hg hm
          rw [this] at hov
          exact absurd hov (by decide)
  | mountInstance =>
      intro hov
      have hov' : sys.bodyOverflow = "hidden" := hov
      have hany := h hov'
      show (sys.instances ++
          [({ mounted := true, isOpen := false } : CardModal)]).any
          (fun c => c.mounted && c.isOpen) = true
      rw [List.any_append]
      unfold anyOpen at hany
      rw [hany]
      rfl

theorem lockedImpliesOpen_run (n : Nat) (evs : List PageEvent) :
    lockedImpliesOpen (runPage n evs) := by
  have key : ∀ (l : List PageEvent) (sys : ModalSys), lockedImpliesOpen sys →
      lockedImpliesOpen (l.foldl pageStep sys) := by
    intro l
    induction l with
    | nil => exact fun sys h => h
    | cons ev l ih => exact fun sys h => ih _ (lockedImpliesOpen_step h ev)
  exact key evs (pageInit n) (lockedImpliesOpen_init n)

/-! ### Claim C4 -/

/-- C4 counterexample: from a one-card page, open the card's modal (the
scroll locks), pin the event from inside the modal (a pinned-card modal
instance mounts, closed), then unpin it from the still-open modal (the
pinned card and its modal instance unmount). That teardown's
`onUnmounted` resets the shared overflow to "", leaving a reachable UI
state with an Open modal instance and the page scroll NOT suppressed —
so the claim is false as stated. -/
theorem modal_scroll_lock_counterexample :
    anyOpen (runPage 1 [PageEvent.openRequest 0, PageEvent.mountInstance,
      PageEvent.unmountInstance 1]) = true ∧
    (runPage 1 [PageEvent.openRequest 0, PageEvent.mountInstance,
      PageEvent.unmountInstance 1]).bodyOverflow ≠ "hidden" := by
  exact ⟨rfl, by decide⟩

/-- C4 amended: opening a Detail Modal instance sets the page scroll
lock; closing that instance (backdrop click or close button, and Escape,
which closes every open instance) releases it; unmounting any mounted
instance — a still-open one included — releases it unconditionally, even
while a different instance is still Open. Hence the guarantee is
one-directional: in every reachable UI state, if scroll is suppressed
then at least one modal instance is Open. -/
theorem modal_scroll_lock_amended :
    (∀ (n : Nat) (evs : List PageEvent),
      (runPage n evs).bodyOverflow = "hidden" →
      anyOpen (runPage n evs) = true) ∧
    (∀ (sys : ModalSys) (i : Nat) (c : CardModal),
      sys.instances[i]? = some c →
      (c.mounted = true → c.isOpen = false →
        (pageStep sys (PageEvent.openRequest i)).bodyOverflow = "hidden") ∧
      (c.mounted = true → c.isOpen = true →
        (pageStep sys (PageEvent.backdropClick i)).bodyOverflow = "" ∧
        (pageStep sys (PageEvent.closeButtonClick i)).bodyOverflow = "") ∧
      (c.mounted = true →
        (pageStep sys (PageEvent.unmountInstance i)).bodyOverflow = "")) ∧
    (∀ sys : ModalSys, anyOpen sys = true →
      (pageStep sys PageEvent.escapeKey).bodyOverflow = "") := by
  refine ⟨?_, ?_, ?_⟩
  · intro n evs hov
    exact lockedImpliesOpen_run n evs hov
  · intro sys i c hg
    exact ⟨fun hm ho => pageStep_open_locks hg hm ho,
      fun hm ho => pageStep_close_unlocks hg hm ho,
      fun hm => pageStep_unmount_unlocks hg hm⟩
  · intro sys hs
    exact pageStep_escape_unlocks hs

/-- Witness for the amended C4 on a one-card page. -/
theorem modal_scroll_lock_amended_witness :
    anyOpen (runPage 1 [PageEvent.openRequest 0]) = true ∧
    (pageStep (pageInit 1) (PageEvent.openRequest 0)).bodyOverflow
      = "hidden" ∧
    ((pageStep (runPage 1 [PageEvent.openRequest 0])
        (PageEvent.backdropClick 0)).bodyOverflow = "" ∧
      (pageStep (runPage 1 [PageEvent.openRequest 0])
        (PageEvent.closeButtonClick 0)).bodyOverflow = "") ∧
    (pageStep (runPage 1 [PageEvent.openRequest 0])
      (PageEvent.unmountInstance 0)).bodyOverflow = "" ∧
    (pageStep (runPage 1 [PageEvent.openRequest 0])
      PageEvent.escapeKey).bodyOverflow = "" := by
  have h := modal_scroll_lock_amended
  refine ⟨h.1 1 [PageEvent.openRequest 0] (by decide), ?_, ?_, ?_, ?_⟩
  · exact (h.2.1 (pageInit 1) 0 { mounted := true, isOpen := false }
      (by decide)).1 rfl rfl
  · exact (h.2.1 (runPage 1 [PageEvent.openRequest 0]) 0
      { mounted := true, isOpen := true } (by decide)).2.1 rfl rfl
  · exact (h.2.1 (runPage 1 [PageEvent.openRequest 0]) 0
      { mounted := true, isOpen := true } (by decide)).2.2 rfl
  · exact h.2.2 (runPage 1 [PageEvent.openRequest 0]) (by decide)
